import Mathlib

/-!
Verification of the oblate schema-validation library (izxxr/oblate).

This file shallowly embeds the parts of the library that the checked
claims are about:

* `oblate/schema.py` — the load pipeline (`Schema._prepare_from_data` and
  `Schema._process_field_value`);
* `oblate/fields/primitive.py` and `oblate/fields.py` — the primitive
  field coercion logic (`Integer._process_value`, `String._process_value`,
  `BasePrimitiveField._check_strict`);
* `oblate/fields/nesting.py` — the nested `Object.value_load` wrapping;
* `oblate/fields/base.py` / `oblate/fields.py` — `Field.__set__` (update
  path with rollback), `Field.__init__` (required/default policy) and
  `Field.copy`;
* `oblate/exceptions.py` — `ValidationError._raw_std` (the `raw()` format).

Python dictionaries are embedded as association lists in insertion order
(Python dicts preserve insertion order and have unique keys; the
uniqueness shows up as `Nodup` hypotheses).  Python exceptions become
`Except` / explicit error lists.  Machine-level detail the claims do not
touch (reference counting, float values, unicode digit classes) is noted
where it is approximated.
-/

namespace Oblate

/-- Embedded Python values, covering the value universe the claims
exercise.  `inst` is a loaded schema instance (the result of a nested
`Object` load); floats are not needed by any claim and are omitted. -/
inductive PyValue where
  | none
  | bool (b : Bool)
  | int (n : Int)
  | str (s : String)
  | list (xs : List PyValue)
  | dict (xs : List (String × PyValue))
  | inst (vals : List (String × PyValue))

/-- An error message: either a plain string, or — for nested `Object`
fields — the structured `raw()` dictionary of the nested schema's
aggregate error (`ValidationError.raw()` returns `Dict[str, List[...]]`,
where an element is itself such a dictionary one level down). -/
inductive Msg where
  | text (s : String)
  | nested (entries : List (String × List Msg))

/-- The `oblate.exceptions.FieldError`: one validation failure.  `key` is the
value of the `current_field_name` context variable at construction time
(the raw data key in the `_prepare_from_data` input loop, the bound field
name elsewhere); `msg` is the message argument. -/
structure FieldError where
  key : String
  msg : Msg

/-- The `value is None` test. -/
def PyValue.isNone : PyValue → Bool
  | .none => true
  | _ => false

/-- Python's `isinstance(value, int)`: `True` exactly for `int` and
`bool` values (`bool` is a subtype of `int` in Python). -/
def pyIsInstanceInt : PyValue → Bool
  | .int _ => true
  | .bool _ => true
  | _ => false

/-- The `isinstance(value, str)`. -/
def pyIsInstanceStr : PyValue → Bool
  | .str _ => true
  | _ => false

/-- Digit run accepted by Python's `int(str)` after the optional sign:
nonempty, starts and ends with a digit, single underscores allowed
between digits. -/
def intDigitRun : List Char → Bool
  | [] => false
  | c :: rest => c.isDigit && intDigitTail rest
where
  intDigitTail : List Char → Bool
    | [] => true
    | '_' :: [] => false
    | '_' :: c :: rest => c.isDigit && intDigitTail rest
    | c :: rest => c.isDigit && intDigitTail rest

/-- Numeric value of a digit-and-underscore run. -/
def digitsToNat (cs : List Char) : Nat :=
  (cs.filter (fun c => c != '_')).foldl (fun a c => a * 10 + (c.toNat - '0'.toNat)) 0

/-- Strip leading and trailing whitespace from a character list. -/
def stripWs (cs : List Char) : List Char :=
  ((cs.dropWhile Char.isWhitespace).reverse.dropWhile Char.isWhitespace).reverse

/-- Model of Python's `int()` applied to a `str`: optional surrounding
whitespace, optional sign, ASCII decimal digits with underscores between
digits; `none` models the `ValueError` raised otherwise.  (Python also
accepts some non-ASCII digit classes; no claim involves those.) -/
def pyIntOfString (s : String) : Option Int :=
  match stripWs s.toList with
  | '-' :: rest => if intDigitRun rest then some (-(digitsToNat rest : Int)) else Option.none
  | '+' :: rest => if intDigitRun rest then some (digitsToNat rest : Int) else Option.none
  | cs => if intDigitRun cs then some (digitsToNat cs : Int) else Option.none

/-- Model of the builtin `int(value)` call in `Integer._process_value`
(only reached when `value` is not an `int`/`bool`): strings are parsed,
everything else raises (`TypeError`, caught by the `except Exception`).
The `bool`/`int` lines are unreachable from `_process_value` but match
the builtin. -/
def pyInt : PyValue → Option Int
  | .str s => pyIntOfString s
  | .bool b => some (if b then 1 else 0)
  | .int n => some n
  | _ => Option.none

/-- Model of `str(value)` as used by `String._process_value` when strict
validation is off.  Container renderings are indicative only: no claim
exercises the lenient `String` path on containers. -/
def pyStr : PyValue → String
  | .str s => s
  | .bool b => if b then "True" else "False"
  | .int n => toString n
  | .none => "None"
  | .list _ => "[...]"
  | .dict _ => "{...}"
  | .inst _ => "<schema>"

/-- The `BasePrimitiveField._check_strict(load, init)`:
`strict_load` when loading, `strict_set` when initializing, otherwise
both. -/
def checkStrict (strictLoad strictSet : Bool) (load init : Bool) : Bool :=
  if load then strictLoad
  else if init then strictSet
  else strictLoad && strictSet

/-- The `BasePrimitiveField.__init__`: a provided `strict` shorthand
overrides both `strict_load` and `strict_set` (`MISSING` is `Option.none`). -/
def primitiveStrictFlags (strictLoad strictSet : Bool) (strict : Option Bool) : Bool × Bool :=
  match strict with
  | some b => (b, b)
  | Option.none => (strictLoad, strictSet)

/-- The `Integer` error message for `errors.INVALID_DATATYPE`
(`oblate/fields/primitive.py`). -/
def intInvalidDatatypeMsg : Msg := .text "Value for this field must be of integer data type."

/-- The `Integer` error message for `errors.NONCONVERTABLE_VALUE`. -/
def intNonConvertableMsg : Msg := .text "Value for this field must be an integer-convertable value."

/-- The `Integer._process_value` (`oblate/fields/primitive.py` lines 159-168,
identical logic at `oblate/fields.py` lines 520-529): a non-`int` input
fails with the invalid-datatype error under strict checking, otherwise
`int(value)` is attempted and its failure raises the distinct
non-convertable error; an `int` instance (which includes `bool`) is
returned unchanged. -/
def integerProcessValue (strictLoad strictSet : Bool) (value : PyValue)
    (load init : Bool) : Except Msg PyValue :=
  if !(pyIsInstanceInt value) then
    if checkStrict strictLoad strictSet load init then
      .error intInvalidDatatypeMsg
    else
      match pyInt value with
      | some n => .ok (.int n)
      | Option.none => .error intNonConvertableMsg
  else
    .ok value

/-- The `Integer.value_load`: `_process_value(value, load=True, init=False)`. -/
def integerValueLoad (strictLoad strictSet : Bool) (value : PyValue) : Except Msg PyValue :=
  integerProcessValue strictLoad strictSet value true false

/-- The `String` error message for `errors.INVALID_DATATYPE`. -/
def strInvalidDatatypeMsg : Msg := .text "Value for this field must be of string data type."

/-- The `String._process_value`: a non-`str` input fails under strict
checking and is cast with `str()` otherwise; a `str` passes through. -/
def stringProcessValue (strictLoad strictSet : Bool) (value : PyValue)
    (load init : Bool) : Except Msg PyValue :=
  if !(pyIsInstanceStr value) then
    if checkStrict strictLoad strictSet load init then
      .error strInvalidDatatypeMsg
    else
      .ok (.str (pyStr value))
  else
    .ok value

/-- The `String.value_load`. -/
def stringValueLoad (strictLoad strictSet : Bool) (value : PyValue) : Except Msg PyValue :=
  stringProcessValue strictLoad strictSet value true false

/-- The `String.value_set` (note the source passes `init=True` regardless of
its `init` argument). -/
def stringValueSet (strictLoad strictSet : Bool) (value : PyValue) : Except Msg PyValue :=
  stringProcessValue strictLoad strictSet value false true

end Oblate

namespace Oblate

/-- A field default (`Field._default`): either a plain value or a
callable invoked as `field._default(schema_context, field)` when the
default is filled in (the context arguments are immaterial here and are
modelled by `Unit`). `MISSING` is `Option.none` one level up. -/
inductive FieldDefault where
  | value (v : PyValue)
  | callable (f : Unit → PyValue)

/-- Resolving a default: `field._default(ctx, field) if callable(field._default)
else field._default` (`oblate/schema.py` line 111). -/
def FieldDefault.eval : FieldDefault → PyValue
  | .value v => v
  | .callable f => f ()

/-- Whether the default is a callable (`callable(field._default)`). -/
def FieldDefault.isCallable : FieldDefault → Bool
  | .value _ => false
  | .callable _ => true

/-- A validator callback.  A validator signals failure by raising
(`FieldError` / `ValueError` / `AssertionError`, all normalised to a
`FieldError`) or, in the boolean-callback form, by returning a falsy
value which raises the generic validation-failed error; both failure
modes are modelled by returning `some msg`, success by `Option.none`. -/
def Validator : Type := PyValue → Option Msg

/-- The data of a bound field as consumed by the load pipeline in
`oblate/schema.py`: `_name`, `required`, `none`, `_default`,
`_raw_validators`/`_validators`, and the `value_load` coercion hook
(abstract in the base class, supplied per field kind).  The exceptions a
`value_load` implementation may raise are modelled by `Except Msg`. -/
structure Field where
  name : String
  required : Bool
  none : Bool
  default : Option FieldDefault
  rawValidators : List Validator
  validators : List Validator
  valueLoad : PyValue → Except Msg PyValue

/-- The `required` as computed by `Field.__init__`
(`oblate/fields/base.py` lines 134-151: `self.missing = missing or
(default is not MISSING)`, where `missing` is the negation of
"required"): supplying a default forces the field to be not required. -/
def initRequired (missing : Bool) (default : Option FieldDefault) : Bool :=
  !(missing || default.isSome)

/-- The `Field._run_validators(value, ..., raw=...)`: every validator in the
chosen list runs; each failure becomes a `FieldError` (keyed by the
ambient field name); failures do not short-circuit the remaining
validators. -/
def runValidators (vs : List Validator) (key : String) (value : PyValue) : List FieldError :=
  vs.filterMap fun f => (f value).map fun m => ⟨key, m⟩

/-- One entry of the lazy-validation work list built by
`Schema._process_field_value` when called from `Schema._prepare_from_data`:
the field, the value to validate, and whether the raw validators are
meant. -/
structure Deferred where
  field : Field
  value : PyValue
  raw : Bool

/-- The `d[key] = value` on an insertion-ordered Python dict embedded as an
association list: replace in place if the key exists, else append. -/
def assocSet {α β : Type} [DecidableEq α] : List (α × β) → α → β → List (α × β)
  | [], k, v => [(k, v)]
  | (k', v') :: rest, k, v =>
      if k' = k then (k, v) :: rest else (k', v') :: assocSet rest k v

/-- The `d.get(key)` on an embedded Python dict. -/
def assocGet {α β : Type} [DecidableEq α] : List (α × β) → α → Option β
  | [], _ => Option.none
  | (k', v') :: rest, k => if k' = k then some v' else assocGet rest k

/-- Boolean membership test on a key list. -/
def memB {α : Type} [DecidableEq α] (a : α) : List α → Bool
  | [] => false
  | b :: rest => if b = a then true else memB a rest

/-- Removal of a key from an embedded Python dict (`d.pop(key)` leaves
the dict without that key; keys are unique, so removing every entry with
the key is the same operation). -/
def assocRemove {α β : Type} [DecidableEq α] : List (α × β) → α → List (α × β)
  | [], _ => []
  | (k', v') :: rest, k =>
      if k' = k then assocRemove rest k else (k', v') :: assocRemove rest k

/-- The `self._field_values[key] = value`. -/
def setValue (l : List (String × PyValue)) (k : String) (v : PyValue) :
    List (String × PyValue) :=
  assocSet l k v

/-- Error message for a null value on a non-nullable field
(`oblate/schema.py` line 167). -/
def noneDisallowedMsg : Msg := .text "This field cannot take a None value."

/-- Error message for an unknown input key (`oblate/schema.py` line 96). -/
def unknownFieldMsg : Msg := .text "Invalid or unknown field."

/-- Error message for a missing required field (`oblate/schema.py` line 109). -/
def fieldRequiredMsg : Msg := .text "This field is required."

/-- Result of `Schema._process_field_value`: the updated
`_field_values`, the updated lazy-validation work list, and the returned
error list. -/
structure ProcessResult where
  fieldValues : List (String × PyValue)
  deferred : List Deferred
  errors : List FieldError

/-- The `Schema._process_field_value` (`oblate/schema.py` lines 131-189).
`lazyValidation` is `validators is not None`; `ckey` is the ambient
`current_field_name` (the raw data key during `_prepare_from_data`),
used to key every `FieldError` raised inside the call, while values are
stored under `field._name`.

Control flow, in source order: (1) with lazy validation and a nonempty
raw-validator list, queue the raw validators on the raw value; (2) a
`None` value is stored verbatim when the field allows null, else yields
the none-disallowed error, and returns either way; (3) otherwise raw
validators run inline when validation is not lazy, `value_load` is
attempted — its failure is the only returned error and nothing is
stored — and on success normal validators run inline (non-lazy) or are
queued (lazy), the coerced value being stored only when the inline
validator error list is empty. -/
def processFieldValue (lazyValidation : Bool) (ckey : String) (field : Field)
    (value : PyValue) (fieldValues : List (String × PyValue))
    (deferred : List Deferred) : ProcessResult :=
  let deferred :=
    if lazyValidation && !field.rawValidators.isEmpty then
      deferred ++ [⟨field, value, true⟩]
    else deferred
  if value.isNone then
    if field.none then
      ⟨setValue fieldValues field.name PyValue.none, deferred, []⟩
    else
      ⟨fieldValues, deferred, [⟨ckey, noneDisallowedMsg⟩]⟩
  else
    let validatorErrors :=
      if !lazyValidation then runValidators field.rawValidators ckey value else []
    match field.valueLoad value with
    | .error m => ⟨fieldValues, deferred, [⟨ckey, m⟩]⟩
    | .ok finalValue =>
        let validatorErrors := validatorErrors ++
          (if !lazyValidation then runValidators field.validators ckey finalValue else [])
        let deferred :=
          if lazyValidation then deferred ++ [⟨field, finalValue, false⟩] else deferred
        let fieldValues :=
          if validatorErrors.isEmpty then setValue fieldValues field.name finalValue
          else fieldValues
        ⟨fieldValues, deferred, validatorErrors⟩

/-- The `fields.pop(name)` on the working copy of the registry: the bound
field for `name`, if any, together with the registry without that key
(registry keys are unique, being Python dict keys). -/
def popField (fields : List (String × Field)) (name : String) :
    Option (Field × List (String × Field)) :=
  match assocGet fields name with
  | some f => some (f, assocRemove fields name)
  | Option.none => Option.none

/-- State after the first loop of `Schema._prepare_from_data`. -/
structure Step1Result where
  remaining : List (String × Field)
  fieldValues : List (String × PyValue)
  deferred : List Deferred
  errors : List FieldError

/-- First loop of `Schema._prepare_from_data` (lines 91-103): each input
pair either fails to resolve — an unknown-field error keyed by the raw
input key, processing continuing with the next pair — or is processed by
`processFieldValue` with lazy validation, its errors extended onto the
running list. -/
def loadItems (remaining : List (String × Field)) (fieldValues : List (String × PyValue))
    (deferred : List Deferred) (errors : List FieldError) :
    List (String × PyValue) → Step1Result
  | [] => ⟨remaining, fieldValues, deferred, errors⟩
  | (name, value) :: rest =>
      match popField remaining name with
      | Option.none =>
          loadItems remaining fieldValues deferred
            (errors ++ [⟨name, unknownFieldMsg⟩]) rest
      | some (field, remaining') =>
          let r := processFieldValue true name field value fieldValues deferred
          loadItems remaining' r.fieldValues r.deferred (errors ++ r.errors) rest

/-- State after the second loop of `Schema._prepare_from_data`. -/
structure Step2Result where
  fieldValues : List (String × PyValue)
  errors : List FieldError
  defaultCalls : List String

/-- Second loop of `Schema._prepare_from_data` (lines 105-113): every
field left unconsumed by the input contributes a required error when
`required`, and its default — when present — is resolved (callables
invoked here, recorded in `defaultCalls`) and stored. -/
def fillDefaults (fieldValues : List (String × PyValue)) (errors : List FieldError)
    (defaultCalls : List String) : List (String × Field) → Step2Result
  | [] => ⟨fieldValues, errors, defaultCalls⟩
  | (name, field) :: rest =>
      let errors := if field.required then errors ++ [⟨name, fieldRequiredMsg⟩] else errors
      match field.default with
      | Option.none => fillDefaults fieldValues errors defaultCalls rest
      | some d =>
          fillDefaults (setValue fieldValues name d.eval) errors
            (defaultCalls ++ if d.isCallable then [name] else []) rest

/-- Third loop of `Schema._prepare_from_data` (lines 115-124): the
deferred validator runs, in queue order, each keyed by the bound field
name. -/
def runDeferred (errors : List FieldError) : List Deferred → List FieldError
  | [] => errors
  | d :: rest =>
      runDeferred
        (errors ++ runValidators (if d.raw then d.field.rawValidators else d.field.validators)
          d.field.name d.value) rest

/-- Everything `Schema._prepare_from_data` computed just before its
final `if errors:` check: the field values, the accumulated error list,
and the names whose callable default ran (instrumentation for the
lazy-default claim). -/
structure LoadOutcome where
  fieldValues : List (String × PyValue)
  errors : List FieldError
  defaultCalls : List String

/-- The `Schema._prepare_from_data` (lines 86-129) up to the final check:
loop one over the input data, loop two over the remaining fields, loop
three over the deferred validators. -/
def prepareFromData (fields : List (String × Field))
    (data : List (String × PyValue)) : LoadOutcome :=
  let s1 := loadItems fields [] [] [] data
  let s2 := fillDefaults s1.fieldValues s1.errors [] s1.remaining
  ⟨s2.fieldValues, runDeferred s2.errors s1.deferred, s2.defaultCalls⟩

/-- A constructed schema instance: its `_field_values` and the
`SchemaContext._initialized` flag. -/
structure SchemaInst where
  fieldValues : List (String × PyValue)
  initialized : Bool

/-- Loading a schema from raw data (`Schema.__init__` →
`_prepare_from_data`): if any errors were accumulated the aggregate
validation error carrying exactly those errors is raised and the
partially built instance is discarded; otherwise the instance is marked
initialized. -/
def loadSchema (fields : List (String × Field)) (data : List (String × PyValue)) :
    Except (List FieldError) SchemaInst :=
  let o := prepareFromData fields data
  if o.errors.isEmpty then .ok ⟨o.fieldValues, true⟩ else .error o.errors

/-- The `ValidationError._raw_std` (`oblate/exceptions.py` lines 220-233):
group the error messages by key, keys in first-occurrence order,
each key mapping to its messages in occurrence order.  (The
`_flatten_errors` preprocessing only splits list-valued messages, which
do not occur in this embedding: messages are strings or the nested
dictionaries produced by `Object.value_load`.) -/
def rawStdAdd (acc : List (String × List Msg)) (key : String) (m : Msg) :
    List (String × List Msg) :=
  if acc.any (fun p => p.1 = key) then
    acc.map fun p => if p.1 = key then (p.1, p.2 ++ [m]) else p
  else acc ++ [(key, [m])]

/-- The `ValidationError.raw()` over an error list. -/
def rawStd (errors : List FieldError) : List (String × List Msg) :=
  errors.foldl (fun acc e => rawStdAdd acc e.key e.msg) []

/-- The `Object.value_load` (`oblate/fields/nesting.py` lines 71-75,
equivalently `oblate/fields.py` lines 676-680): load the nested schema
from the mapping; if that load fails with the aggregate validation
error, re-raise a single field error whose message is the nested
aggregate's `raw()` structure.  (`Schema._from_nested_object` itself is
not present in `src`; per the spec a mapping value is "recursively
loaded into the nested schema type", i.e. the same load pipeline, and a
non-mapping value is rejected with the invalid-datatype message used by
this field kind.) -/
def objectValueLoad (nested : List (String × Field)) (schemaName : String) :
    PyValue → Except Msg PyValue
  | .dict entries =>
      match loadSchema nested entries with
      | .ok s => .ok (.inst s.fieldValues)
      | .error errs => .error (.nested (rawStd errs))
  | _ => .error (.text s!"Value for this field must be a {schemaName} object.")

/-- The errors one `processFieldValue` call returns, as a function of
the call arguments only (the state parameters do not influence them). -/
def pfvErrors (lazyValidation : Bool) (ckey : String) (f : Field) (v : PyValue) :
    List FieldError :=
  if v.isNone then
    if f.none then [] else [⟨ckey, noneDisallowedMsg⟩]
  else
    match f.valueLoad v with
    | .error m => [⟨ckey, m⟩]
    | .ok w =>
        (if !lazyValidation then runValidators f.rawValidators ckey v else [])
          ++ (if !lazyValidation then runValidators f.validators ckey w else [])

/-- The entries one `processFieldValue` call appends to the deferred
work list. -/
def pfvDeferredDelta (lazyValidation : Bool) (f : Field) (v : PyValue) : List Deferred :=
  (if lazyValidation && !f.rawValidators.isEmpty then [⟨f, v, true⟩] else [])
    ++ (if v.isNone then []
        else
          match f.valueLoad v with
          | .error _ => []
          | .ok w => if lazyValidation then [⟨f, w, false⟩] else [])

/-- The value one `processFieldValue` call stores under `f.name`
(`Option.none` when the call leaves `_field_values` untouched). -/
def pfvStore (lazyValidation : Bool) (ckey : String) (f : Field) (v : PyValue) :
    Option PyValue :=
  if v.isNone then
    if f.none then some PyValue.none else Option.none
  else
    match f.valueLoad v with
    | .error _ => Option.none
    | .ok w =>
        if (pfvErrors lazyValidation ckey f v).isEmpty then some w else Option.none

/-- The raw-validator queueing prefix of a lazy `processFieldValue`
call: the work list grows by one raw entry exactly when the field has
raw validators. -/
def lazyRawDeferral (deferred : List Deferred) (field : Field) (value : PyValue) :
    List Deferred :=
  if field.rawValidators.isEmpty then deferred else deferred ++ [⟨field, value, true⟩]

/-- Specification of the errors one input pair contributes in the first
loop of `_prepare_from_data`: the unknown-field error when the key
resolves to no field, otherwise the errors of its (lazy)
`processFieldValue` call. -/
def itemErrors (fields : List (String × Field)) (p : String × PyValue) : List FieldError :=
  match assocGet fields p.1 with
  | Option.none => [⟨p.1, unknownFieldMsg⟩]
  | some f => (processFieldValue true p.1 f p.2 [] []).errors

/-- Specification of the deferred-validation entries one input pair
contributes in the first loop. -/
def itemDeferred (fields : List (String × Field)) (p : String × PyValue) : List Deferred :=
  match assocGet fields p.1 with
  | Option.none => []
  | some f => (processFieldValue true p.1 f p.2 [] []).deferred

/-- Specification of the errors one unconsumed field contributes in the
second loop. -/
def requiredErrors (p : String × Field) : List FieldError :=
  if p.2.required then [⟨p.1, fieldRequiredMsg⟩] else []

/-- Specification of the errors one deferred entry contributes in the
third loop. -/
def deferredErrors (d : Deferred) : List FieldError :=
  runValidators (if d.raw then d.field.rawValidators else d.field.validators)
    d.field.name d.value

/-- Compositional specification of every error a whole
`_prepare_from_data` pass accumulates: per input pair the unknown-key /
null-violation / coercion errors, then per missing field the required
errors, then per queued entry the validator failures — nothing dropped,
no early stop. -/
def loadErrorsSpec (fields : List (String × Field)) (data : List (String × PyValue)) :
    List FieldError :=
  (data.map (itemErrors fields)).flatten
    ++ ((fields.filter fun p => !(memB p.1 (data.map Prod.fst))).map requiredErrors).flatten
    ++ (((data.map (itemDeferred fields)).flatten).map deferredErrors).flatten

/-- Whether a field has a callable default. -/
def hasCallableDefault (f : Field) : Bool :=
  match f.default with
  | some d => d.isCallable
  | Option.none => false

/-- A plain required, non-nullable, validator-free field with the given
coercion hook (the common constructor shape `fields.X()` used by the
concrete scenarios below). -/
def mkSimpleField (name : String) (vl : PyValue → Except Msg PyValue) : Field :=
  ⟨name, true, false, Option.none, [], [], vl⟩

/-! Concrete scenario for C2: one strict `String` field carrying one
always-failing normal validator. -/

/-- Field `x` whose single normal validator always fails. -/
def c2Field : Field :=
  { name := "x", required := true, none := false, default := Option.none,
    rawValidators := [], validators := [fun _ => some (.text "validation failed")],
    valueLoad := stringValueLoad true true }

/-- Registry for the C2 scenario. -/
def c2Fields : List (String × Field) := [("x", c2Field)]

/-- Input for the C2 scenario: a value that coerces fine but fails the
validator. -/
def c2Data : List (String × PyValue) := [("x", .str "v")]

/-! Concrete scenario for C4: a nullable field carrying a raw validator
that rejects `None`. -/

/-- Nullable field `x` with a raw validator rejecting `None`. -/
def c4Field : Field :=
  { name := "x", required := true, none := true, default := Option.none,
    rawValidators := [fun v => if v.isNone then some (.text "raw validator rejected None") else Option.none],
    validators := [], valueLoad := stringValueLoad true true }

/-- Registry for the C4 scenario. -/
def c4Fields : List (String × Field) := [("x", c4Field)]

/-- Input for the C4 scenario: an explicit null for the nullable field. -/
def c4Data : List (String × PyValue) := [("x", PyValue.none)]

/-! Concrete scenario for C7: `Author{name: String, rating: Integer}`
nested in `Book{title: String, author: Object(Author)}`. -/

/-- The `Author` schema registry. -/
def authorFields : List (String × Field) :=
  [("name", mkSimpleField "name" (stringValueLoad true true)),
   ("rating", mkSimpleField "rating" (integerValueLoad true true))]

/-- The `Book` schema registry, with `author` an `Object(Author)`. -/
def bookFields : List (String × Field) :=
  [("title", mkSimpleField "title" (stringValueLoad true true)),
   ("author", mkSimpleField "author" (objectValueLoad authorFields "Author"))]

/-- The C7 input: `rating` is missing inside `author`. -/
def bookData : List (String × PyValue) :=
  [("title", .str "t"), ("author", .dict [("name", .str "x")])]

/-! Concrete scenario for the C1 witness: two invalid fields and one
unknown key in a single load. -/

/-- Registry for the C1 witness: a strict `Integer` and a strict
`String`, both required. -/
def c1Fields : List (String × Field) :=
  [("a", mkSimpleField "a" (integerValueLoad true true)),
   ("b", mkSimpleField "b" (stringValueLoad true true))]

/-- Input for the C1 witness: `a` has the wrong type, `c` is unknown,
`b` is missing. -/
def c1Data : List (String × PyValue) := [("a", .str "5"), ("c", .int 1)]

/-! Concrete scenario for the C6 witness: a field with a callable
default, absent from the input. -/

/-- The callable default used in the C6 witness. -/
def c6Default : FieldDefault := .callable fun _ => .int 7

/-- Field `x` with the callable default, not required (as forced by
`Field.__init__` when a default is supplied). -/
def c6Field : Field :=
  { name := "x", required := false, none := false, default := some c6Default,
    rawValidators := [], validators := [], valueLoad := integerValueLoad true true }

/-- Registry for the C6 witness. -/
def c6Fields : List (String × Field) := [("x", c6Field)]

end Oblate

namespace Oblate.SetPath

/-!
Embedding of the field update path `Field.__set__`
(`oblate/fields/base.py` lines 178-211; the same logic at
`oblate/fields.py` lines 169-208).  In this part of the source a field
failure is a per-field `ValidationError`; its message is modelled by
`Msg` like the other eras' field errors.
-/

/-- The data of a bound field as consumed by `Field.__set__`: `_name`,
`none`, the abstract `value_set` coercion hook and both validator
lists.  A validator's two failure modes (raising, or returning a falsy
value which raises the generic validation-failed error) are both
modelled by returning `some msg`. -/
structure Field where
  name : String
  none : Bool
  valueSet : PyValue → Except Msg PyValue
  rawValidators : List Validator
  validators : List Validator

/-- The per-instance schema state `Field.__set__` touches:
`_field_values`, the partial-object flags, `_default_fields`, and the
initialization flag (not consulted by `__set__` itself). -/
structure SchemaState where
  fieldValues : List (String × PyValue)
  partialMode : Bool
  partialIncluded : List String
  defaultFields : List String
  initialized : Bool

/-- The `Field._run_validators` of this era: every validator runs, failures
collected. -/
def runValidatorMsgs (vs : List Validator) (value : PyValue) : List Msg :=
  vs.filterMap fun g => g value

/-- The `DEFAULT_ERROR_MESSAGES[errors.DISALLOWED_FIELD]`. -/
def disallowedFieldMsg : Msg := .text "This field cannot be set on this partial object."

/-- The `DEFAULT_ERROR_MESSAGES[errors.NONE_DISALLOWED]`. -/
def noneDisallowedSetMsg : Msg := .text "Value for this field cannot be None"

/-- The wrapping applied to a `value_set` failure: the error is packed
into an aggregate, and the aggregate's `raw()` structure (one key, one
message) is re-raised bound to the field. -/
def wrapSetError (name : String) (m : Msg) : Msg := .nested [(name, [m])]

/-- The `Field.__set__` (`oblate/fields/base.py` lines 178-211).  Returns
the updated state together with the list of errors that the final
`if errs: raise` re-raises; the set raises exactly when that list is
nonempty.

Source order: the partial-object guard; then the null handling — a null
on a nullable field is stored immediately, a null on a non-nullable
field errors (skipping the assignment block); then, with no errors so
far, the previous value is read (after the possible null store),
`value_set` is attempted (its failure wrapped), on success the coerced
value is stored and both validator lists run, the name is dropped from
`_default_fields` when error-free, and with errors and an existing
previous value the previous value is written back. -/
def fieldSet (f : Field) (s : SchemaState) (value : PyValue) :
    SchemaState × List Msg :=
  if s.partialMode && !(s.partialIncluded.contains f.name) then
    (s, [disallowedFieldMsg])
  else if value.isNone && !f.none then
    (s, [noneDisallowedSetMsg])
  else
    let s :=
      if value.isNone && f.none then
        { s with fieldValues := setValue s.fieldValues f.name PyValue.none }
      else s
    let old := assocGet s.fieldValues f.name
    match f.valueSet value with
    | .error m => (s, [wrapSetError f.name m])
    | .ok assigned =>
        let values := setValue s.fieldValues f.name assigned
        let errs := runValidatorMsgs f.rawValidators value
          ++ runValidatorMsgs f.validators assigned
        let defaultFields :=
          if s.defaultFields.contains f.name && errs.isEmpty then
            s.defaultFields.erase f.name
          else s.defaultFields
        let values :=
          match errs, old with
          | _ :: _, some prev => setValue values f.name prev
          | _, _ => values
        ({ s with fieldValues := values, defaultFields := defaultFields }, errs)

/-- Whether setting `value` on `f` hits a coercion or validator
failure (the claim's "a value that fails coercion or validation"). -/
def setFailure (f : Field) (value : PyValue) : Bool :=
  match f.valueSet value with
  | .error _ => true
  | .ok assigned =>
      !(runValidatorMsgs f.rawValidators value
        ++ runValidatorMsgs f.validators assigned).isEmpty

/-- C8 counterexample fixture: a nullable strict `String` field
(`String.value_set` passes `init=True`, so `strict_set` applies). -/
def c8Field : Field :=
  { name := "name", none := true, valueSet := stringValueSet true true,
    rawValidators := [], validators := [] }

/-- C8 counterexample fixture: an initialized instance whose `name`
field holds `"x"`. -/
def c8State : SchemaState :=
  { fieldValues := [("name", .str "x")], partialMode := false,
    partialIncluded := [], defaultFields := [], initialized := true }

/-- C8 witness fixture: a non-nullable strict `String` field. -/
def c8WitnessField : Field :=
  { name := "name", none := false, valueSet := stringValueSet true true,
    rawValidators := [], validators := [] }

end Oblate.SetPath

namespace Oblate.CopyModel

/-!
Embedding of `Field.copy` (`oblate/fields/base.py` lines 398-444, same
logic at `oblate/fields.py` lines 370-416).  `copy.copy(self)` is a
*shallow* copy: the copy's `_validators` / `_raw_validators` slots hold
the same list objects as the original's.  To express that aliasing, the
mutable lists live in an explicit heap of list cells addressed by cell
ids, and a field holds cell ids; validator callbacks are opaque tokens
(`Nat`).  Configuration slots are the `__slots__` of the 0.2 era
(`missing`, `none`, `default`, `load_key`, `dump_key`) plus the binding
(`_schema`, `_name`, `MISSING` modelled as `Option.none`); the
`**overrides` parameter is not exercised (no override arguments). -/

/-- A field object: configuration slots, validator-list cell ids, and
the late binding. -/
structure Field where
  missing : Bool
  none : Bool
  default : Option PyValue
  loadKey : Option String
  dumpKey : Option String
  validatorsRef : Nat
  rawValidatorsRef : Nat
  schema : Option String
  name : Option String

/-- The heap of mutable validator-list cells. -/
structure Heap where
  lists : List (Nat × List Nat)

/-- Read a list cell. -/
def Heap.get (h : Heap) (r : Nat) : List Nat := (assocGet h.lists r).getD []

/-- Overwrite a list cell. -/
def Heap.set (h : Heap) (r : Nat) (v : List Nat) : Heap := ⟨assocSet h.lists r v⟩

/-- The `copy.copy(self)`: duplicates the slots — including the list cell
ids, which is exactly what makes the copy share the lists. -/
def copyCopy (f : Field) : Field := f

/-- The `Field._clear_state`: reset `_schema` and `_name` to `MISSING`. -/
def clearState (f : Field) : Field := { f with schema := Option.none, name := Option.none }

/-- The `Field.copy(validators=...)` with no overrides: shallow-copy, clear
the binding, and when `validators` is false clear both (shared)
validator lists in place. -/
def fieldCopy (h : Heap) (f : Field) (validators : Bool) : Field × Heap :=
  let fc := clearState (copyCopy f)
  if validators then (fc, h)
  else (fc, (h.set fc.validatorsRef []).set fc.rawValidatorsRef [])

/-- The `Field.add_validator(callback, raw=...)`: append to the referenced
list. -/
def addValidator (h : Heap) (f : Field) (cb : Nat) (raw : Bool) : Heap :=
  if raw then h.set f.rawValidatorsRef (h.get f.rawValidatorsRef ++ [cb])
  else h.set f.validatorsRef (h.get f.validatorsRef ++ [cb])

/-- C9 fixture: heap with the original's validator list `[7]` in cell 0
and its raw list `[]` in cell 1. -/
def c9Heap : Heap := ⟨[(0, [7]), (1, [])]⟩

/-- C9 fixture: a field bound to schema `S` as `x`, holding cells 0/1. -/
def c9Field : Field :=
  { missing := false, none := false, default := Option.none,
    loadKey := Option.none, dumpKey := Option.none,
    validatorsRef := 0, rawValidatorsRef := 1,
    schema := some "S", name := some "x" }

end Oblate.CopyModel

namespace Oblate

/--
Claim C3. For an `Integer` field: with strict mode enabled, loading the
string `"5"` fails with the invalid-datatype (wrong type) error; with
strict mode disabled, loading `"5"` succeeds returning the integer `5`,
and loading `"abc"` fails with the non-convertable-value error, which is
a distinct error message from the wrong-type error — both failure kinds
are independently triggerable.  (`strict=True`/`False` sets both
strictness flags via `primitiveStrictFlags`.)
-/
theorem c3_integer_strict_vs_lenient :
    primitiveStrictFlags true true (some true) = (true, true)
    ∧ primitiveStrictFlags true true (some false) = (false, false)
    ∧ integerValueLoad true true (.str "5") = .error intInvalidDatatypeMsg
    ∧ integerValueLoad false false (.str "5") = .ok (.int 5)
    ∧ integerValueLoad false false (.str "abc") = .error intNonConvertableMsg
    ∧ intInvalidDatatypeMsg ≠ intNonConvertableMsg := by
  refine ⟨rfl, rfl, rfl, rfl, rfl, ?_⟩
  intro h
  simp only [intInvalidDatatypeMsg, intNonConvertableMsg, Msg.text.injEq] at h
  exact absurd h (by decide)

/--
Claim C10. For every `Integer` field, including one with strict mode
enabled, loading a Python boolean succeeds and returns it unchanged
rather than raising the invalid-datatype error, because the strict type
test `isinstance(value, int)` accepts `bool` (a subtype of `int`).
Stated for both booleans under both the strict and the lenient
configuration.
-/
theorem c10_integer_accepts_bool_unchanged :
    integerValueLoad true true (.bool true) = .ok (.bool true)
    ∧ integerValueLoad true true (.bool false) = .ok (.bool false)
    ∧ integerValueLoad false false (.bool true) = .ok (.bool true)
    ∧ integerValueLoad false false (.bool false) = .ok (.bool false)
    ∧ pyIsInstanceInt (.bool true) = true ∧ pyIsInstanceInt (.bool false) = true :=
  ⟨rfl, rfl, rfl, rfl, rfl, rfl⟩

end Oblate

namespace Oblate

/-! ### Association-list lemmas -/

theorem assocGet_set_eq {α β : Type} [DecidableEq α] (l : List (α × β)) (k : α) (v : β) :
    assocGet (assocSet l k v) k = some v := by
  induction l with
  | nil => simp [assocSet, assocGet]
  | cons p rest ih =>
      obtain ⟨k', v'⟩ := p
      by_cases h : k' = k
      · simp [assocSet, assocGet, h]
      · simp [assocSet, assocGet, h, ih]

theorem assocGet_set_ne {α β : Type} [DecidableEq α] (l : List (α × β)) (k k' : α) (v : β)
    (h : k' ≠ k) : assocGet (assocSet l k v) k' = assocGet l k' := by
  have hne : ¬ (k = k') := fun hc => h hc.symm
  induction l with
  | nil => simp [assocSet, assocGet, hne]
  | cons p rest ih =>
      obtain ⟨k₀, v₀⟩ := p
      by_cases h₀ : k₀ = k
      · subst h₀
        simp [assocSet, assocGet, hne]
      · simp only [assocSet, if_neg h₀]
        by_cases h₁ : k₀ = k'
        · simp [assocGet, h₁]
        · simp [assocGet, h₁, ih]

theorem assocGet_eq_none_iff {α β : Type} [DecidableEq α] (l : List (α × β)) (k : α) :
    assocGet l k = Option.none ↔ ∀ p ∈ l, p.1 ≠ k := by
  induction l with
  | nil => simp [assocGet]
  | cons p rest ih =>
      obtain ⟨k', v'⟩ := p
      by_cases h : k' = k
      · simp [assocGet, h]
      · simp [assocGet, h, ih]

theorem assocGet_mem {α β : Type} [DecidableEq α] {l : List (α × β)} {k : α} {v : β}
    (h : assocGet l k = some v) : (k, v) ∈ l := by
  induction l with
  | nil => simp [assocGet] at h
  | cons p rest ih =>
      obtain ⟨k', v'⟩ := p
      by_cases h' : k' = k
      · subst h'
        simp [assocGet] at h
        simp [h]
      · simp only [assocGet, if_neg h'] at h
        exact List.mem_cons_of_mem _ (ih h)

theorem assocGet_remove_ne {α β : Type} [DecidableEq α] (l : List (α × β)) (k n : α)
    (h : k ≠ n) : assocGet (assocRemove l n) k = assocGet l k := by
  induction l with
  | nil => simp [assocRemove]
  | cons p rest ih =>
      obtain ⟨k', v'⟩ := p
      by_cases h' : k' = n
      · have hk : ¬ (k' = k) := fun hc => h (hc ▸ h')
        have hnk : ¬ (n = k) := fun hc => h hc.symm
        simp [assocRemove, h', assocGet, hk, hnk, ih]
      · by_cases h₁ : k' = k
        · simp [assocRemove, h', assocGet, h₁, h]
        · simp [assocRemove, h', assocGet, h₁, ih]

theorem assocRemove_sublist {α β : Type} [DecidableEq α] (l : List (α × β)) (n : α) :
    (assocRemove l n).Sublist l := by
  induction l with
  | nil => simp [assocRemove]
  | cons p rest ih =>
      obtain ⟨k', v'⟩ := p
      by_cases h' : k' = n
      · simpa [assocRemove, h'] using ih.cons (k', v')
      · simpa [assocRemove, h'] using ih.cons₂ (k', v')

theorem mem_assocRemove {α β : Type} [DecidableEq α] {l : List (α × β)} {n : α}
    {p : α × β} (h : p ∈ assocRemove l n) : p ∈ l :=
  (assocRemove_sublist l n).mem h

theorem assocRemove_filter {α β : Type} [DecidableEq α] (l : List (α × β)) (n : α)
    (ks : List α) :
    ((assocRemove l n).filter fun p => !(memB p.1 ks))
      = l.filter fun p => !(memB p.1 (n :: ks)) := by
  induction l with
  | nil => simp [assocRemove]
  | cons p rest ih =>
      obtain ⟨k', v'⟩ := p
      by_cases h' : k' = n
      · subst h'
        simp [assocRemove, List.filter_cons, memB, ih]
      · have hnk : ¬ (n = k') := fun hc => h' hc.symm
        simp only [assocRemove, if_neg h', List.filter_cons]
        have hmb : memB k' (n :: ks) = memB k' ks := by simp [memB, hnk]
        rw [hmb, ih]

theorem filter_skip_absent_key {α β : Type} [DecidableEq α] (l : List (α × β)) (n : α)
    (ks : List α) (h : assocGet l n = Option.none) :
    (l.filter fun p => !(memB p.1 (n :: ks))) = l.filter fun p => !(memB p.1 ks) := by
  apply List.filter_congr
  intro p hp
  have hne : ¬ (n = p.1) := fun hc => (assocGet_eq_none_iff l n).mp h p hp hc.symm
  simp [memB, hne]

/-- Two entries of a key-unique association list with the same key are
the same entry. -/
theorem mem_unique_key {α β : Type} [DecidableEq α] {l : List (α × β)} {k : α} {a b : β}
    (hnd : (l.map Prod.fst).Nodup) (ha : (k, a) ∈ l) (hb : (k, b) ∈ l) : a = b := by
  induction l with
  | nil => simp at ha
  | cons p rest ih =>
      obtain ⟨k', v'⟩ := p
      simp only [List.map_cons, List.nodup_cons] at hnd
      rcases List.mem_cons.mp ha with ha' | ha' <;>
        rcases List.mem_cons.mp hb with hb' | hb'
      · rw [Prod.mk.injEq] at ha' hb'
        exact ha'.2.trans hb'.2.symm
      · exfalso
        apply hnd.1
        rw [Prod.mk.injEq] at ha'
        rw [ha'.1] at hb'
        exact List.mem_map_of_mem Prod.fst hb'
      · exfalso
        apply hnd.1
        rw [Prod.mk.injEq] at hb'
        rw [hb'.1] at ha'
        exact List.mem_map_of_mem Prod.fst ha'
      · exact ih hnd.2 ha' hb'

end Oblate

namespace Oblate

/-! ### `processFieldValue` characterization -/

theorem PyValue.isNone_iff {v : PyValue} : v.isNone = true ↔ v = PyValue.none := by
  cases v <;> simp [PyValue.isNone]

/-- Closed form of one `Schema._process_field_value` call: the errors
and deferred entries depend only on the call arguments, the deferral is
an append, and the store is a single optional write under the bound
field name. -/
theorem processFieldValue_eq (lazyValidation : Bool) (ckey : String) (f : Field)
    (v : PyValue) (fv : List (String × PyValue)) (dfr : List Deferred) :
    processFieldValue lazyValidation ckey f v fv dfr =
      ⟨(match pfvStore lazyValidation ckey f v with
         | some w => setValue fv f.name w
         | Option.none => fv),
       dfr ++ pfvDeferredDelta lazyValidation f v,
       pfvErrors lazyValidation ckey f v⟩ := by
  have hite : ∀ (c : Prop) [Decidable c] (x : Deferred),
      (if c then dfr ++ [x] else dfr) = dfr ++ (if c then [x] else []) := by
    intro c _ x
    split <;> simp
  cases hv : v.isNone
  · have hv' : ¬ (v.isNone = true) := by simp [hv]
    simp only [processFieldValue, pfvErrors, pfvDeferredDelta, pfvStore, hv,
      Bool.false_eq_true, if_false, if_neg hv']
    cases hl : f.valueLoad v with
    | error m =>
        simp [hite]
    | ok w =>
        cases lazyValidation with
        | false =>
            simp [hite]
            split <;> simp_all
        | true =>
            simp only [Bool.true_and, Bool.not_true, Bool.false_eq_true, if_false,
              List.nil_append, List.append_nil, List.isEmpty_nil, if_true]
            rw [hite]
            simp [List.append_assoc]
  · have hveq : v = PyValue.none := PyValue.isNone_iff.mp hv
    subst hveq
    cases hf : f.none
    · simp [processFieldValue, pfvErrors, pfvDeferredDelta, pfvStore, PyValue.isNone, hf, hite]
    · simp [processFieldValue, pfvErrors, pfvDeferredDelta, pfvStore, PyValue.isNone, hf, hite]

end Oblate

namespace Oblate

/-! ### Per-component facts about the load pipeline -/

theorem map_congr_mem {α β : Type} {l : List α} {f g : α → β}
    (h : ∀ a ∈ l, f a = g a) : l.map f = l.map g := by
  induction l with
  | nil => rfl
  | cons a rest ih =>
      simp only [List.map_cons]
      rw [h a (List.mem_cons_self a rest), ih fun a ha => h a (List.mem_cons_of_mem _ ha)]

theorem runValidators_key {vs : List Validator} {k : String} {v : PyValue}
    {e : FieldError} (h : e ∈ runValidators vs k v) : e.key = k := by
  simp only [runValidators, List.mem_filterMap] at h
  obtain ⟨g, _, hg⟩ := h
  cases hgv : g v with
  | none => simp [hgv] at hg
  | some m =>
      rw [hgv] at hg
      simp only [Option.map_some', Option.some.injEq] at hg
      rw [← hg]

theorem pfvErrors_key {lazyValidation : Bool} {ckey : String} {f : Field} {v : PyValue}
    {e : FieldError} (h : e ∈ pfvErrors lazyValidation ckey f v) : e.key = ckey := by
  unfold pfvErrors at h
  by_cases hv : v.isNone = true
  · rw [if_pos hv] at h
    by_cases hf : f.none = true
    · rw [if_pos hf] at h
      simp at h
    · rw [if_neg hf] at h
      simp only [List.mem_singleton] at h
      rw [h]
  · rw [if_neg hv] at h
    cases hl : f.valueLoad v with
    | error m =>
        rw [hl] at h
        simp only [List.mem_singleton] at h
        rw [h]
    | ok w =>
        rw [hl] at h
        cases lazyValidation with
        | true => simp at h
        | false =>
            simp only [Bool.not_false, if_true] at h
            rcases List.mem_append.mp h with h' | h'
            · exact runValidators_key h'
            · exact runValidators_key h'

theorem pfvDeferredDelta_field {lazyValidation : Bool} {f : Field} {v : PyValue}
    {d : Deferred} (h : d ∈ pfvDeferredDelta lazyValidation f v) : d.field = f := by
  unfold pfvDeferredDelta at h
  rcases List.mem_append.mp h with h' | h'
  · split at h'
    · simp only [List.mem_singleton] at h'
      rw [h']
    · simp at h'
  · split at h'
    · simp at h'
    · split at h'
      · simp at h'
      · split at h'
        · simp only [List.mem_singleton] at h'
          rw [h']
        · simp at h'

theorem itemErrors_remove {l : List (String × Field)} {n : String} (p : String × PyValue)
    (h : p.1 ≠ n) : itemErrors (assocRemove l n) p = itemErrors l p := by
  simp [itemErrors, assocGet_remove_ne _ _ _ h]

theorem itemDeferred_remove {l : List (String × Field)} {n : String} (p : String × PyValue)
    (h : p.1 ≠ n) : itemDeferred (assocRemove l n) p = itemDeferred l p := by
  simp [itemDeferred, assocGet_remove_ne _ _ _ h]

theorem itemErrors_key {fields : List (String × Field)} {p : String × PyValue}
    {e : FieldError} (h : e ∈ itemErrors fields p) : e.key = p.1 := by
  unfold itemErrors at h
  split at h
  · simp only [List.mem_singleton] at h
    rw [h]
  · rw [processFieldValue_eq] at h
    exact pfvErrors_key h

theorem itemDeferred_field {fields : List (String × Field)} {p : String × PyValue}
    {d : Deferred} (h : d ∈ itemDeferred fields p) :
    ∃ f, assocGet fields p.1 = some f ∧ d.field = f := by
  unfold itemDeferred at h
  split at h
  · simp at h
  · rename_i f hget
    rw [processFieldValue_eq] at h
    simp only [List.nil_append] at h
    exact ⟨f, hget, pfvDeferredDelta_field h⟩

end Oblate

namespace Oblate

/-! ### The three loops of `_prepare_from_data` -/

theorem loadItems_errors (data : List (String × PyValue)) :
    ∀ (remaining : List (String × Field)) (fv : List (String × PyValue))
      (dfr : List Deferred) (errs : List FieldError),
      (data.map Prod.fst).Nodup →
      (loadItems remaining fv dfr errs data).errors
        = errs ++ (data.map (itemErrors remaining)).flatten := by
  induction data with
  | nil => intro remaining fv dfr errs _; simp [loadItems]
  | cons p rest ih =>
      obtain ⟨n, v⟩ := p
      intro remaining fv dfr errs hnd
      simp only [List.map_cons, List.nodup_cons] at hnd
      obtain ⟨hn, hnd'⟩ := hnd
      have hcongr : ∀ (l' : List (String × Field)),
          rest.map (itemErrors (assocRemove l' n)) = rest.map (itemErrors l') := by
        intro l'
        apply map_congr_mem
        intro p hp
        apply itemErrors_remove
        intro hc
        apply hn
        rw [← hc]
        exact List.mem_map_of_mem Prod.fst hp
      cases hget : assocGet remaining n with
      | none =>
          simp only [loadItems, popField, hget]
          rw [ih _ _ _ _ hnd']
          simp [itemErrors, hget, List.append_assoc]
      | some f =>
          simp only [loadItems, popField, hget]
          rw [ih _ _ _ _ hnd', hcongr]
          simp only [processFieldValue_eq, itemErrors, hget, List.map_cons,
            List.flatten_cons, List.append_assoc]

theorem loadItems_deferred (data : List (String × PyValue)) :
    ∀ (remaining : List (String × Field)) (fv : List (String × PyValue))
      (dfr : List Deferred) (errs : List FieldError),
      (data.map Prod.fst).Nodup →
      (loadItems remaining fv dfr errs data).deferred
        = dfr ++ (data.map (itemDeferred remaining)).flatten := by
  induction data with
  | nil => intro remaining fv dfr errs _; simp [loadItems]
  | cons p rest ih =>
      obtain ⟨n, v⟩ := p
      intro remaining fv dfr errs hnd
      simp only [List.map_cons, List.nodup_cons] at hnd
      obtain ⟨hn, hnd'⟩ := hnd
      have hcongr : ∀ (l' : List (String × Field)),
          rest.map (itemDeferred (assocRemove l' n)) = rest.map (itemDeferred l') := by
        intro l'
        apply map_congr_mem
        intro p hp
        apply itemDeferred_remove
        intro hc
        apply hn
        rw [← hc]
        exact List.mem_map_of_mem Prod.fst hp
      cases hget : assocGet remaining n with
      | none =>
          simp only [loadItems, popField, hget]
          rw [ih _ _ _ _ hnd']
          simp [itemDeferred, hget, List.append_assoc]
      | some f =>
          simp only [loadItems, popField, hget]
          rw [ih _ _ _ _ hnd', hcongr]
          simp only [processFieldValue_eq, itemDeferred, hget, List.map_cons,
            List.flatten_cons, List.append_assoc, List.nil_append]

theorem loadItems_remaining (data : List (String × PyValue)) :
    ∀ (remaining : List (String × Field)) (fv : List (String × PyValue))
      (dfr : List Deferred) (errs : List FieldError),
      (loadItems remaining fv dfr errs data).remaining
        = remaining.filter fun p => !(memB p.1 (data.map Prod.fst)) := by
  induction data with
  | nil =>
      intro remaining fv dfr errs
      simp [loadItems, memB]
  | cons p rest ih =>
      obtain ⟨n, v⟩ := p
      intro remaining fv dfr errs
      cases hget : assocGet remaining n with
      | none =>
          simp only [loadItems, popField, hget]
          rw [ih, List.map_cons, filter_skip_absent_key _ _ _ hget]
      | some f =>
          simp only [loadItems, popField, hget]
          rw [ih, List.map_cons, assocRemove_filter]

theorem loadItems_values_other (data : List (String × PyValue)) :
    ∀ (remaining : List (String × Field)) (fv : List (String × PyValue))
      (dfr : List Deferred) (errs : List FieldError) (k : String),
      (∀ p ∈ remaining, (p.2 : Field).name = p.1) →
      k ∉ data.map Prod.fst →
      assocGet (loadItems remaining fv dfr errs data).fieldValues k = assocGet fv k := by
  induction data with
  | nil => intro remaining fv dfr errs k _ _; simp [loadItems]
  | cons p rest ih =>
      obtain ⟨n, v⟩ := p
      intro remaining fv dfr errs k hwf hk
      simp only [List.map_cons, List.mem_cons, not_or] at hk
      obtain ⟨hkn, hk'⟩ := hk
      cases hget : assocGet remaining n with
      | none =>
          simp only [loadItems, popField, hget]
          exact ih remaining fv dfr _ k hwf hk'
      | some f =>
          simp only [loadItems, popField, hget]
          have hwf' : ∀ p ∈ assocRemove remaining n, (p.2 : Field).name = p.1 :=
            fun p hp => hwf p (mem_assocRemove hp)
          have hfname : f.name = n := hwf (n, f) (assocGet_mem hget)
          rw [ih _ _ _ _ k hwf' hk']
          simp only [processFieldValue_eq]
          cases hst : pfvStore true n f v with
          | none => simp only [hst]
          | some w =>
              simp only [hst, setValue]
              exact assocGet_set_ne fv f.name k w (by rw [hfname]; exact hkn)

end Oblate

namespace Oblate

theorem fillDefaults_errors (l : List (String × Field)) :
    ∀ (fv : List (String × PyValue)) (errs : List FieldError) (calls : List String),
      (fillDefaults fv errs calls l).errors = errs ++ (l.map requiredErrors).flatten := by
  induction l with
  | nil => intro fv errs calls; simp [fillDefaults]
  | cons p rest ih =>
      obtain ⟨name, field⟩ := p
      intro fv errs calls
      cases hd : field.default with
      | none =>
          by_cases hreq : field.required = true <;>
            simp [fillDefaults, hd, hreq, requiredErrors, ih, List.append_assoc]
      | some d =>
          by_cases hreq : field.required = true <;>
            simp [fillDefaults, hd, hreq, requiredErrors, ih, List.append_assoc]

theorem fillDefaults_calls (l : List (String × Field)) :
    ∀ (fv : List (String × PyValue)) (errs : List FieldError) (calls : List String),
      (fillDefaults fv errs calls l).defaultCalls
        = calls ++ ((l.filter fun p => hasCallableDefault p.2).map Prod.fst) := by
  induction l with
  | nil => intro fv errs calls; simp [fillDefaults]
  | cons p rest ih =>
      obtain ⟨name, field⟩ := p
      intro fv errs calls
      cases hd : field.default with
      | none =>
          simp [fillDefaults, hd, ih, List.filter_cons, hasCallableDefault]
      | some d =>
          cases d with
          | value v =>
              simp [fillDefaults, hd, ih, List.filter_cons, hasCallableDefault,
                FieldDefault.isCallable]
          | callable g =>
              simp [fillDefaults, hd, ih, List.filter_cons, hasCallableDefault,
                FieldDefault.isCallable, List.append_assoc]

theorem fillDefaults_values_absent (l : List (String × Field)) :
    ∀ (fv : List (String × PyValue)) (errs : List FieldError) (calls : List String)
      (k : String), k ∉ l.map Prod.fst →
      assocGet (fillDefaults fv errs calls l).fieldValues k = assocGet fv k := by
  induction l with
  | nil => intro fv errs calls k _; simp [fillDefaults]
  | cons p rest ih =>
      obtain ⟨name, field⟩ := p
      intro fv errs calls k hk
      simp only [List.map_cons, List.mem_cons, not_or] at hk
      obtain ⟨hkn, hk'⟩ := hk
      cases hd : field.default with
      | none => simp only [fillDefaults, hd]; exact ih _ _ _ k hk'
      | some d =>
          simp only [fillDefaults, hd]
          rw [ih _ _ _ k hk', setValue]
          exact assocGet_set_ne fv name k d.eval hkn

theorem fillDefaults_values_mem (l : List (String × Field)) :
    ∀ (fv : List (String × PyValue)) (errs : List FieldError) (calls : List String)
      (name : String) (f : Field) (d : FieldDefault),
      (l.map Prod.fst).Nodup → (name, f) ∈ l → f.default = some d →
      assocGet (fillDefaults fv errs calls l).fieldValues name = some d.eval := by
  induction l with
  | nil => intro fv errs calls name f d _ hmem _; simp at hmem
  | cons p rest ih =>
      obtain ⟨name', field'⟩ := p
      intro fv errs calls name f d hnd hmem hd
      simp only [List.map_cons, List.nodup_cons] at hnd
      obtain ⟨hn, hnd'⟩ := hnd
      rcases List.mem_cons.mp hmem with hm | hm
      · rw [Prod.mk.injEq] at hm
        obtain ⟨hm1, hm2⟩ := hm
        subst hm1
        subst hm2
        simp only [fillDefaults, hd]
        have habs : name ∉ rest.map Prod.fst := hn
        rw [fillDefaults_values_absent rest _ _ _ name habs, setValue]
        exact assocGet_set_eq fv name d.eval
      · have hname : name ≠ name' := by
          intro hc
          apply hn
          rw [← hc]
          exact List.mem_map_of_mem Prod.fst hm
        cases hd' : field'.default with
        | none =>
            simp only [fillDefaults, hd']
            exact ih _ _ _ name f d hnd' hm hd
        | some d' =>
            simp only [fillDefaults, hd']
            exact ih _ _ _ name f d hnd' hm hd

theorem runDeferred_errors (l : List Deferred) :
    ∀ (errs : List FieldError),
      runDeferred errs l = errs ++ (l.map deferredErrors).flatten := by
  induction l with
  | nil => intro errs; simp [runDeferred]
  | cons d rest ih =>
      intro errs
      simp [runDeferred, deferredErrors, ih, List.append_assoc]

end Oblate

namespace Oblate

/--
Claim C1. For every load of a schema from a raw mapping (keys unique, as
in a Python dict), all per-field errors produced across the whole pass —
unknown keys and null violations and coercion failures from the input
loop, missing-required errors from the remaining-fields loop, validator
failures from the deferred-validator loop — are accumulated rather than
stopping at the first one: the error list of the pass equals the
concatenation of every item's compositional error contribution
(`loadErrorsSpec`).  The aggregate validation error is raised if and
only if at least one error was accumulated, and when no error occurred
the instance's context is marked initialized.
-/
theorem c1_load_accumulates_all_errors (fields : List (String × Field))
    (data : List (String × PyValue)) (hnd : (data.map Prod.fst).Nodup) :
    (prepareFromData fields data).errors = loadErrorsSpec fields data
    ∧ (loadSchema fields data = .error (loadErrorsSpec fields data)
        ↔ loadErrorsSpec fields data ≠ [])
    ∧ (∀ s, loadSchema fields data = .ok s
        → loadErrorsSpec fields data = [] ∧ s.initialized = true) := by
  have herr : (prepareFromData fields data).errors = loadErrorsSpec fields data := by
    unfold prepareFromData loadErrorsSpec
    simp only []
    rw [runDeferred_errors, fillDefaults_errors,
      loadItems_errors data fields [] [] [] hnd,
      loadItems_remaining, loadItems_deferred data fields [] [] [] hnd]
    simp [List.append_assoc]
  have hload : loadSchema fields data
      = if (loadErrorsSpec fields data).isEmpty
        then Except.ok ⟨(prepareFromData fields data).fieldValues, true⟩
        else Except.error (loadErrorsSpec fields data) := by
    simp only [loadSchema]
    rw [herr]
  refine ⟨herr, ?_, ?_⟩
  · by_cases hsp : loadErrorsSpec fields data = []
    · rw [hsp] at hload ⊢
      simp only [List.isEmpty_nil, if_true] at hload
      rw [hload]
      simp
    · have : (loadErrorsSpec fields data).isEmpty = false := by
        simp [List.isEmpty_iff, hsp]
      rw [this] at hload
      simp only [Bool.false_eq_true, if_false] at hload
      rw [hload]
      simp [hsp]
  · intro s hs
    by_cases hsp : loadErrorsSpec fields data = []
    · rw [hsp] at hload
      simp only [List.isEmpty_nil, if_true] at hload
      rw [hload] at hs
      cases hs
      exact ⟨hsp, rfl⟩
    · have : (loadErrorsSpec fields data).isEmpty = false := by
        simp [List.isEmpty_iff, hsp]
      rw [this] at hload
      simp only [Bool.false_eq_true, if_false] at hload
      rw [hload] at hs
      exact absurd hs (by simp)

/--
Witness for C1 at a concrete input: registry `{a: Integer(strict),
b: String(strict)}` loaded from `{a: "5", c: 1}` — `a` fails coercion,
`c` is unknown, `b` is missing — and the load raises exactly the three
accumulated errors.
-/
theorem c1_load_accumulates_all_errors_witness :
    (c1Data.map Prod.fst).Nodup
    ∧ loadSchema c1Fields c1Data = .error (loadErrorsSpec c1Fields c1Data)
    ∧ loadErrorsSpec c1Fields c1Data
        = [⟨"a", intInvalidDatatypeMsg⟩, ⟨"c", unknownFieldMsg⟩,
           ⟨"b", fieldRequiredMsg⟩] := by
  have hnd : (c1Data.map Prod.fst).Nodup := by simp [c1Data]
  have hspec : loadErrorsSpec c1Fields c1Data
      = [⟨"a", intInvalidDatatypeMsg⟩, ⟨"c", unknownFieldMsg⟩,
         ⟨"b", fieldRequiredMsg⟩] := by rfl
  refine ⟨hnd, ?_, hspec⟩
  exact ((c1_load_accumulates_all_errors c1Fields c1Data hnd).2.1).mpr
    (by rw [hspec]; simp)

end Oblate

namespace Oblate

/--
Claim C2, amended. For every field processed during load (the lazy
validation mode of `_process_field_value`) whose input value is
non-null: if `value_load` raises, the error is recorded as the only
error of the call, no value is stored for the field, and its normal
validators are neither run nor queued (coercion failure short-circuits
them); if `value_load` succeeds, the normal validators are queued to run
on the coerced value at the end of the pass and the coerced value is
stored immediately and unconditionally — not, as originally claimed,
only when no normal-validator error occurred in the pass.  The queued
validator failures are accumulated into the aggregate error (C1), so a
load in which one occurred raises and discards the instance.
-/
theorem c2_load_coercion_gates_validators (ckey : String) (f : Field)
    (v : PyValue) (fv : List (String × PyValue)) (dfr : List Deferred)
    (hv : v.isNone = false) :
    (∀ m, f.valueLoad v = .error m →
      processFieldValue true ckey f v fv dfr
        = ⟨fv, lazyRawDeferral dfr f v, [⟨ckey, m⟩]⟩)
    ∧ (∀ w, f.valueLoad v = .ok w →
      processFieldValue true ckey f v fv dfr
        = ⟨setValue fv f.name w, lazyRawDeferral dfr f v ++ [⟨f, w, false⟩], []⟩) := by
  have hraw : dfr ++ (if true && !f.rawValidators.isEmpty then [⟨f, v, true⟩] else [])
      = lazyRawDeferral dfr f v := by
    unfold lazyRawDeferral
    cases hre : f.rawValidators.isEmpty <;> simp [hre]
  constructor
  · intro m hm
    rw [processFieldValue_eq]
    unfold pfvStore pfvDeferredDelta pfvErrors
    rw [hv]
    simp only [Bool.false_eq_true, if_false, hm]
    rw [← hraw]
    simp
  · intro w hw
    rw [processFieldValue_eq]
    unfold pfvStore pfvDeferredDelta pfvErrors
    rw [hv]
    simp only [Bool.false_eq_true, if_false, hw, Bool.not_true, List.append_nil,
      List.nil_append, List.isEmpty_nil, if_true]
    rw [← hraw]
    simp

/--
Witness for the amended C2 at a concrete input: a strict `String` field
with no validators, loading `"v"` — coercion succeeds, the coerced value
is stored, and the normal-validator run is queued.
-/
theorem c2_load_coercion_gates_validators_witness :
    (PyValue.str "v").isNone = false
    ∧ (mkSimpleField "x" (stringValueLoad true true)).valueLoad (.str "v")
        = .ok (.str "v")
    ∧ processFieldValue true "x" (mkSimpleField "x" (stringValueLoad true true))
        (.str "v") [] []
        = ⟨[("x", .str "v")],
           [⟨mkSimpleField "x" (stringValueLoad true true), .str "v", false⟩], []⟩ := by
  refine ⟨rfl, rfl, ?_⟩
  have h := (c2_load_coercion_gates_validators "x"
    (mkSimpleField "x" (stringValueLoad true true)) (.str "v") [] [] rfl).2
    (.str "v") rfl
  rw [h]
  rfl

/--
Counterexample to C2 as stated: in the load of `c2Fields` (one field
`x` whose normal validator always fails) from `{x: "v"}`, a
normal-validator error for `x` is accumulated in the pass and yet the
coerced value *is* stored in `_field_values` — the conjunct "the coerced
value is stored only if no normal-validator error occurred for that
field in that pass" fails (the aggregate error is then raised and the
instance discarded, which is why the stored value is never observable
from a successful load).
-/
theorem c2_counterexample :
    ¬ ((prepareFromData c2Fields c2Data).errors = []
        ∨ assocGet (prepareFromData c2Fields c2Data).fieldValues "x" = Option.none) := by
  intro h
  have herr : (prepareFromData c2Fields c2Data).errors
      = [⟨"x", .text "validation failed"⟩] := by rfl
  have hval : assocGet (prepareFromData c2Fields c2Data).fieldValues "x"
      = some (.str "v") := by rfl
  rcases h with h | h
  · rw [herr] at h
    exact absurd h (by simp)
  · rw [hval] at h
    exact absurd h (by simp)

end Oblate

namespace Oblate

/--
Claim C4, amended. For every field given an explicit null value during
load: if the field allows null, null is stored verbatim and coercion and
the *normal* validators are bypassed for that field — but the field's
*raw* validators, if any, are still queued and run on the null during
the pass, so they are not bypassed; if the field does not allow null, a
"none disallowed" error is emitted and nothing is stored for that field
(its raw validators are likewise still queued).  Coercion is bypassed in
both cases: the result does not depend on `value_load` at all.
-/
theorem c4_null_handling (ckey : String) (f : Field)
    (fv : List (String × PyValue)) (dfr : List Deferred) :
    (f.none = true →
      processFieldValue true ckey f PyValue.none fv dfr
        = ⟨setValue fv f.name PyValue.none, lazyRawDeferral dfr f PyValue.none, []⟩)
    ∧ (f.none = false →
      processFieldValue true ckey f PyValue.none fv dfr
        = ⟨fv, lazyRawDeferral dfr f PyValue.none, [⟨ckey, noneDisallowedMsg⟩]⟩) := by
  have hraw : dfr ++ (if true && !f.rawValidators.isEmpty
        then [⟨f, PyValue.none, true⟩] else [])
      = lazyRawDeferral dfr f PyValue.none := by
    unfold lazyRawDeferral
    cases hre : f.rawValidators.isEmpty <;> simp [hre]
  constructor
  · intro hn
    rw [processFieldValue_eq]
    unfold pfvStore pfvDeferredDelta pfvErrors
    simp only [PyValue.isNone, if_true, hn]
    rw [← hraw]
    simp
  · intro hn
    rw [processFieldValue_eq]
    unfold pfvStore pfvDeferredDelta pfvErrors
    simp only [PyValue.isNone, if_true, hn, Bool.false_eq_true, if_false]
    rw [← hraw]
    simp

/--
Witness for the amended C4 at a concrete input: a nullable
validator-free strict `String` field loads an explicit null — the null
is stored verbatim with no error and nothing queued.
-/
theorem c4_null_handling_witness :
    ({ mkSimpleField "x" (stringValueLoad true true) with none := true } : Field).none = true
    ∧ processFieldValue true "x"
        { mkSimpleField "x" (stringValueLoad true true) with none := true }
        PyValue.none [] []
        = ⟨[("x", PyValue.none)], [], []⟩ := by
  refine ⟨rfl, ?_⟩
  have h := (c4_null_handling "x"
    { mkSimpleField "x" (stringValueLoad true true) with none := true } [] []).1 rfl
  rw [h]
  rfl

/--
Counterexample to C4 as stated: `c4Field` allows null but carries a raw
validator that rejects `None`; the claim says validators are bypassed
for a null value on a nullable field (so this load would succeed with
null stored), yet the load of `{x: None}` raises with the raw
validator's error.
-/
theorem c4_counterexample :
    c4Field.none = true
    ∧ loadSchema c4Fields c4Data
        = .error [⟨"x", .text "raw validator rejected None"⟩] :=
  ⟨rfl, rfl⟩

/--
Claim C5. (Evaluation of the code at the claim's failing input.)  The
load pipeline in `src`'s `Schema._prepare_from_data` emits the
unknown-field error for an unresolved input key unconditionally — it
never consults `SchemaConfig.ignore_extra` (the embedding, like the
source, has no configuration input at all) — and continues with the
next input pair, accumulating one unknown-field error per unknown key,
each keyed by the raw input key.
-/
theorem c5_unknown_key_always_errors :
    loadSchema [] [("test", .str "2")] = .error [⟨"test", unknownFieldMsg⟩]
    ∧ loadSchema [] [("u1", .int 1), ("u2", .int 2)]
        = .error [⟨"u1", unknownFieldMsg⟩, ⟨"u2", unknownFieldMsg⟩] :=
  ⟨rfl, rfl⟩

/--
Claim C7. Loading `Book{title: String, author: Object(Author)}` from
`{'title': 't', 'author': {'name': 'x'}}` (with `rating` missing inside
`author`) produces exactly one error, keyed `author`, whose nested
`raw()` structure contains the `rating`-required error — the nested
schema's aggregate failure is wrapped into a single error on the parent
field, not flattened into the parent's own top-level errors, and the
parent's `raw()` output nests one level deeper.
-/
theorem c7_nested_object_error_wrapped :
    loadSchema bookFields bookData
      = .error [⟨"author", .nested [("rating", [fieldRequiredMsg])]⟩]
    ∧ rawStd [⟨"author", .nested [("rating", [fieldRequiredMsg])]⟩]
      = [("author", [.nested [("rating", [fieldRequiredMsg])]])] :=
  ⟨rfl, rfl⟩

end Oblate

namespace Oblate

theorem memB_eq_false {α : Type} [DecidableEq α] {a : α} {l : List α} (h : a ∉ l) :
    memB a l = false := by
  induction l with
  | nil => rfl
  | cons b rest ih =>
      simp only [List.mem_cons, not_or] at h
      simp only [memB, if_neg (fun hc : b = a => h.1 hc.symm)]
      exact ih h.2

theorem requiredErrors_mem {p : String × Field} {e : FieldError}
    (h : e ∈ requiredErrors p) :
    p.2.required = true ∧ e = ⟨p.1, fieldRequiredMsg⟩ := by
  unfold requiredErrors at h
  split at h
  · simp only [List.mem_singleton] at h
    exact ⟨by assumption, h⟩
  · simp at h

theorem callable_calls_count {l : List (String × Field)} {name : String} {f : Field}
    (hnd : (l.map Prod.fst).Nodup) (hmem : (name, f) ∈ l)
    (hcall : hasCallableDefault f = true) :
    ((l.filter fun p => hasCallableDefault p.2).map Prod.fst).count name = 1 := by
  induction l with
  | nil => simp at hmem
  | cons p rest ih =>
      obtain ⟨name', field'⟩ := p
      simp only [List.map_cons, List.nodup_cons] at hnd
      obtain ⟨hn, hnd'⟩ := hnd
      rcases List.mem_cons.mp hmem with hm | hm
      · rw [Prod.mk.injEq] at hm
        obtain ⟨hm1, hm2⟩ := hm
        subst hm1
        subst hm2
        rw [List.filter_cons, if_pos (by exact hcall)]
        simp only [List.map_cons]
        rw [List.count_cons_self]
        have hzero : ((rest.filter fun p => hasCallableDefault p.2).map Prod.fst).count name
            = 0 := by
          apply List.count_eq_zero.mpr
          intro hc
          apply hn
          simp only [List.mem_map] at hc
          obtain ⟨q, hq, hq'⟩ := hc
          have := List.mem_of_mem_filter hq
          rw [← hq']
          exact List.mem_map_of_mem Prod.fst this
        rw [hzero]
      · have hname : name ≠ name' := by
          intro hc
          apply hn
          rw [← hc]
          exact List.mem_map_of_mem Prod.fst hm
        rw [List.filter_cons]
        split
        · simp only [List.map_cons]
          rw [List.count_cons_of_ne hname]
          exact ih hnd' hm
        · exact ih hnd' hm

/--
Claim C6. For every field with a default that is absent from the load
input: supplying a default forces the field to be not required
(`initRequired`, from `Field.__init__`, is `false` whenever a default is
present, whatever the `missing` argument), so the load stores the
resolved default value for the field, accumulates no "field required"
error for it, and — when the default is a callable — invokes it exactly
once during the pass.
-/
theorem c6_absent_field_gets_default (fields : List (String × Field))
    (data : List (String × PyValue)) (name : String) (f : Field) (d : FieldDefault)
    (hndf : (fields.map Prod.fst).Nodup)
    (hndd : (data.map Prod.fst).Nodup)
    (hwf : ∀ p ∈ fields, (p.2 : Field).name = p.1)
    (hget : assocGet fields name = some f)
    (hdef : f.default = some d)
    (hreq : f.required = false)
    (habs : name ∉ data.map Prod.fst) :
    (∀ miss : Bool, initRequired miss (some d) = false)
    ∧ assocGet (prepareFromData fields data).fieldValues name = some d.eval
    ∧ (⟨name, fieldRequiredMsg⟩ : FieldError) ∉ (prepareFromData fields data).errors
    ∧ (d.isCallable = true → (prepareFromData fields data).defaultCalls.count name = 1) := by
  have hmem : (name, f) ∈ fields := assocGet_mem hget
  have hrem : (loadItems fields [] [] [] data).remaining
      = fields.filter fun p => !(memB p.1 (data.map Prod.fst)) :=
    loadItems_remaining data fields [] [] []
  have hmemf : (name, f) ∈ (fields.filter fun p => !(memB p.1 (data.map Prod.fst))) := by
    apply List.mem_filter.mpr
    exact ⟨hmem, by rw [memB_eq_false habs]; rfl⟩
  have hndfil : ((fields.filter fun p => !(memB p.1 (data.map Prod.fst))).map
      Prod.fst).Nodup :=
    ((List.filter_sublist fields).map Prod.fst).nodup hndf
  refine ⟨?_, ?_, ?_, ?_⟩
  · intro miss
    simp [initRequired]
  · have hpf : (prepareFromData fields data).fieldValues
        = (fillDefaults (loadItems fields [] [] [] data).fieldValues
            (loadItems fields [] [] [] data).errors []
            (loadItems fields [] [] [] data).remaining).fieldValues := rfl
    rw [hpf, hrem]
    exact fillDefaults_values_mem _ _ _ _ name f d hndfil hmemf hdef
  · have herr : (prepareFromData fields data).errors = loadErrorsSpec fields data := by
      unfold prepareFromData loadErrorsSpec
      simp only []
      rw [runDeferred_errors, fillDefaults_errors,
        loadItems_errors data fields [] [] [] hndd,
        loadItems_remaining, loadItems_deferred data fields [] [] [] hndd]
      simp [List.append_assoc]
    rw [herr]
    unfold loadErrorsSpec
    intro hin
    rcases List.mem_append.mp hin with hin' | hinC
    · rcases List.mem_append.mp hin' with hinA | hinB
      · -- input-loop errors are keyed by data keys
        rw [List.mem_flatten] at hinA
        obtain ⟨l, hl, hel⟩ := hinA
        rw [List.mem_map] at hl
        obtain ⟨p, hp, hpl⟩ := hl
        rw [← hpl] at hel
        have : (⟨name, fieldRequiredMsg⟩ : FieldError).key = p.1 := itemErrors_key hel
        apply habs
        rw [show name = p.1 from this]
        exact List.mem_map_of_mem Prod.fst hp
      · -- required errors for this field are gated on `required`
        rw [List.mem_flatten] at hinB
        obtain ⟨l, hl, hel⟩ := hinB
        rw [List.mem_map] at hl
        obtain ⟨p, hp, hpl⟩ := hl
        rw [← hpl] at hel
        obtain ⟨hpreq, hpe⟩ := requiredErrors_mem hel
        rw [FieldError.mk.injEq] at hpe
        have hp1 : p.1 = name := hpe.1.symm
        have hpfields : p ∈ fields := List.mem_of_mem_filter hp
        have : p.2 = f := by
          apply mem_unique_key hndf _ hmem
          rw [← hp1]
          exact hpfields
        rw [this] at hpreq
        rw [hpreq] at hreq
        exact absurd hreq (by simp)
      -- deferred-validator errors are keyed by fields present in the data
    · rw [List.mem_flatten] at hinC
      obtain ⟨l, hl, hel⟩ := hinC
      rw [List.mem_map] at hl
      obtain ⟨dd, hdd, hdl⟩ := hl
      rw [← hdl] at hel
      have hkey : (⟨name, fieldRequiredMsg⟩ : FieldError).key = dd.field.name := by
        unfold deferredErrors at hel
        exact runValidators_key hel
      rw [List.mem_flatten] at hdd
      obtain ⟨l', hl', hdl'⟩ := hdd
      rw [List.mem_map] at hl'
      obtain ⟨p, hp, hpl'⟩ := hl'
      rw [← hpl'] at hdl'
      obtain ⟨g, hg, hgf⟩ := itemDeferred_field hdl'
      have : g.name = p.1 := hwf (p.1, g) (assocGet_mem hg)
      apply habs
      have hkey' : name = p.1 := by
        rw [show ((⟨name, fieldRequiredMsg⟩ : FieldError).key = name) from rfl] at hkey
        rw [hkey, hgf, this]
      rw [hkey']
      exact List.mem_map_of_mem Prod.fst hp
  · intro hcall
    have hdc : (prepareFromData fields data).defaultCalls
        = (fillDefaults (loadItems fields [] [] [] data).fieldValues
            (loadItems fields [] [] [] data).errors []
            (loadItems fields [] [] [] data).remaining).defaultCalls := rfl
    rw [hdc, fillDefaults_calls, hrem]
    simp only [List.nil_append]
    exact callable_calls_count hndfil hmemf (by unfold hasCallableDefault; rw [hdef]; exact hcall)

/--
Witness for C6 at a concrete input: registry `{x: Integer(default=λ.7)}`
loaded from `{}` — the callable default is resolved to `7`, no required
error is accumulated, and the callable runs exactly once.
-/
theorem c6_absent_field_gets_default_witness :
    assocGet (prepareFromData c6Fields []).fieldValues "x" = some (PyValue.int 7)
    ∧ (⟨"x", fieldRequiredMsg⟩ : FieldError) ∉ (prepareFromData c6Fields []).errors
    ∧ (prepareFromData c6Fields []).defaultCalls.count "x" = 1
    ∧ (∀ miss : Bool, initRequired miss (some c6Default) = false) := by
  have h := c6_absent_field_gets_default c6Fields [] "x" c6Field c6Default
    (by simp [c6Fields]) (by simp)
    (by intro p hp; simp only [c6Fields, List.mem_singleton] at hp; rw [hp]; rfl)
    (by rfl) (by rfl) (by rfl) (by simp)
  exact ⟨h.2.1, h.2.2.1, h.2.2.2 rfl, h.1⟩

end Oblate

namespace Oblate.SetPath

/--
Claim C8, amended. For every initialized, non-partial schema instance,
setting a bound field to a *non-null* value that fails coercion or
validation raises and leaves the instance's previously stored value for
that field unchanged (the original claim also covered null values: for
a null on a nullable field the code stores the null before running
`value_set`, so a subsequent coercion failure rolls back to the null and
the previous value is lost — see the counterexample).
-/
theorem c8_update_rollback (f : Field) (s : SchemaState) (v : PyValue) (prev : PyValue)
    (hinit : s.initialized = true)
    (hpart : s.partialMode = false)
    (hv : v.isNone = false)
    (hprev : assocGet s.fieldValues f.name = some prev)
    (hfail : setFailure f v = true) :
    (fieldSet f s v).2 ≠ []
    ∧ assocGet (fieldSet f s v).1.fieldValues f.name = some prev := by
  unfold fieldSet
  simp only [hpart, hv, Bool.false_and, Bool.false_eq_true, if_false]
  cases hvs : f.valueSet v with
  | error m =>
      simp only []
      exact ⟨by simp, hprev⟩
  | ok w =>
      unfold setFailure at hfail
      rw [hvs] at hfail
      simp only [Bool.not_eq_true', List.isEmpty_eq_false] at hfail
      simp only []
      cases herrs : runValidatorMsgs f.rawValidators v ++ runValidatorMsgs f.validators w with
      | nil => exact absurd herrs hfail
      | cons e es =>
          simp only [hprev]
          constructor
          · simp
          · rw [setValue, setValue]
            exact assocGet_set_eq _ _ _

/--
Witness for the amended C8 at a concrete input: an initialized instance
holding `name = "x"` is assigned the integer `3` on a strict `String`
field; the set raises and the stored value is still `"x"`.
-/
theorem c8_update_rollback_witness :
    c8State.initialized = true
    ∧ (PyValue.int 3).isNone = false
    ∧ assocGet c8State.fieldValues c8WitnessField.name = some (.str "x")
    ∧ setFailure c8WitnessField (.int 3) = true
    ∧ (fieldSet c8WitnessField c8State (.int 3)).2 ≠ []
    ∧ assocGet (fieldSet c8WitnessField c8State (.int 3)).1.fieldValues
        c8WitnessField.name = some (.str "x") := by
  have h := c8_update_rollback c8WitnessField c8State (.int 3) (.str "x")
    rfl rfl rfl rfl rfl
  exact ⟨rfl, rfl, rfl, rfl, h.1, h.2⟩

/--
Counterexample to C8 as stated: on an initialized instance holding
`name = "x"`, setting the nullable strict-`String` field `name` to
`None` fails coercion (`String.value_set` is strict) and raises — but
the null was stored before `value_set` ran and the rollback restores
that null, so the previously stored `"x"` is *not* left unchanged.
-/
theorem c8_counterexample :
    c8Field.none = true
    ∧ assocGet c8State.fieldValues c8Field.name = some (.str "x")
    ∧ (fieldSet c8Field c8State PyValue.none).2 ≠ []
    ∧ assocGet (fieldSet c8Field c8State PyValue.none).1.fieldValues c8Field.name
        = some PyValue.none
    ∧ PyValue.none ≠ PyValue.str "x" := by
  refine ⟨rfl, rfl, ?_, rfl, ?_⟩
  · have hres : (fieldSet c8Field c8State PyValue.none).2
        = [wrapSetError "name" strInvalidDatatypeMsg] := rfl
    rw [hres]
    simp
  · intro hc
    exact PyValue.noConfusion hc

end Oblate.SetPath

namespace Oblate.CopyModel

theorem Heap.get_set_eq (h : Heap) (r : Nat) (v : List Nat) :
    Heap.get (Heap.set h r v) r = v := by
  unfold Heap.get Heap.set
  rw [assocGet_set_eq]
  rfl

theorem Heap.get_set_ne (h : Heap) (r r' : Nat) (v : List Nat) (hne : r' ≠ r) :
    Heap.get (Heap.set h r v) r' = Heap.get h r' := by
  unfold Heap.get Heap.set
  rw [assocGet_set_ne _ _ _ _ hne]

/--
Claim C9, amended. For every field `f`, `f.copy()` duplicates `f`'s
configuration (`missing`, `none`, `default`, `load_key`, `dump_key`) and
always returns an unbound field (`_schema`/`_name` cleared) — but,
because `copy.copy` is shallow, the copy holds the *same* validator list
objects as `f` (equal list-cell references), so mutating the copy's
validators mutates `f`'s and vice versa; and `copy(validators=False)`
clears those shared lists in place, so both the copy's and `f`'s
validator and raw-validator lists end up empty.
-/
theorem c9_copy_shares_validator_lists (h : Heap) (f : Field) (b : Bool) :
    (fieldCopy h f b).1.missing = f.missing
    ∧ (fieldCopy h f b).1.none = f.none
    ∧ (fieldCopy h f b).1.default = f.default
    ∧ (fieldCopy h f b).1.loadKey = f.loadKey
    ∧ (fieldCopy h f b).1.dumpKey = f.dumpKey
    ∧ (fieldCopy h f b).1.validatorsRef = f.validatorsRef
    ∧ (fieldCopy h f b).1.rawValidatorsRef = f.rawValidatorsRef
    ∧ (fieldCopy h f b).1.schema = Option.none
    ∧ (fieldCopy h f b).1.name = Option.none
    ∧ (b = true → (fieldCopy h f b).2 = h)
    ∧ (b = false →
        Heap.get (fieldCopy h f b).2 f.validatorsRef = []
        ∧ Heap.get (fieldCopy h f b).2 f.rawValidatorsRef = []) := by
  cases b with
  | true =>
      refine ⟨rfl, rfl, rfl, rfl, rfl, rfl, rfl, rfl, rfl, fun _ => rfl, ?_⟩
      intro hb
      exact absurd hb (by simp)
  | false =>
      refine ⟨rfl, rfl, rfl, rfl, rfl, rfl, rfl, rfl, rfl, ?_, ?_⟩
      · intro hb
        exact absurd hb (by simp)
      · intro _
        constructor
        · show Heap.get ((h.set f.validatorsRef []).set f.rawValidatorsRef [])
            f.validatorsRef = []
          by_cases href : f.validatorsRef = f.rawValidatorsRef
          · rw [href, Heap.get_set_eq]
          · rw [Heap.get_set_ne _ _ _ _ href, Heap.get_set_eq]
        · show Heap.get ((h.set f.validatorsRef []).set f.rawValidatorsRef [])
            f.rawValidatorsRef = []
          rw [Heap.get_set_eq]

/--
Witness for the amended C9 at a concrete input: copying `c9Field` (list
cell 0 holds `[7]`) with `validators=True` leaves the heap alone and
clears the binding, and copying with `validators=False` clears both
referenced cells in the shared heap.
-/
theorem c9_copy_shares_validator_lists_witness :
    (fieldCopy c9Heap c9Field true).2 = c9Heap
    ∧ (fieldCopy c9Heap c9Field true).1.schema = Option.none
    ∧ (fieldCopy c9Heap c9Field true).1.name = Option.none
    ∧ (fieldCopy c9Heap c9Field true).1.validatorsRef = c9Field.validatorsRef
    ∧ Heap.get (fieldCopy c9Heap c9Field false).2 c9Field.validatorsRef = []
    ∧ Heap.get (fieldCopy c9Heap c9Field false).2 c9Field.rawValidatorsRef = [] := by
  have h1 := c9_copy_shares_validator_lists c9Heap c9Field true
  have h2 := c9_copy_shares_validator_lists c9Heap c9Field false
  exact ⟨h1.2.2.2.2.2.2.2.2.2.1 rfl, h1.2.2.2.2.2.2.2.1, h1.2.2.2.2.2.2.2.2.1,
    h1.2.2.2.2.2.1, (h2.2.2.2.2.2.2.2.2.2.2 rfl).1, (h2.2.2.2.2.2.2.2.2.2.2 rfl).2⟩

/--
Counterexample to C9 as stated: the original field's validator list is
`[7]`; after `c = f.copy()` (validators copied), `c.add_validator(9)`
makes `f`'s own list `[7, 9]` — mutating the copy's validators *does*
change `f`.  Likewise `f.copy(validators=False)` empties `f`'s own
list.
-/
theorem c9_counterexample :
    Heap.get c9Heap c9Field.validatorsRef = [7]
    ∧ Heap.get
        (addValidator (fieldCopy c9Heap c9Field true).2
          (fieldCopy c9Heap c9Field true).1 9 false)
        c9Field.validatorsRef = [7, 9]
    ∧ ([7, 9] : List Nat) ≠ [7]
    ∧ Heap.get (fieldCopy c9Heap c9Field false).2 c9Field.validatorsRef = [] := by
  refine ⟨rfl, rfl, ?_, rfl⟩
  simp

end Oblate.CopyModel
